import Mathlib

/-!
Verification of go-textile-thread core components against their
natural-language specification. Shallow embedding: Go functions become Lean
functions over explicit state; machine integers become Nat with explicit
reduction modulo a power of two where overflow matters; fallible code
returns Except.
-/

namespace Threads

/-- Raw byte strings (Go []byte) are modelled as lists of naturals; where a
value must fit in a byte the statements carry explicit bounds. -/
abbrev Bytes := List Nat

/-! ## Symmetric keys (crypto/symmetric, src/unnamed/part_005)

The Go file wraps AES-256-GCM from the standard library. The AES-GCM
primitive itself is external to this repository; it is modelled below as an
authenticated, invertible cipher keyed by (key, nonce): a byte-wise shift
followed by a 16-byte authentication tag, which preserves the two structural
facts the code relies on (Seal is inverted by Open under the same key and
nonce, and Open authenticates the tag). -/

namespace symmetric

/-- Length of the GCM nonce (NonceBytes in the source). -/
def NonceBytes : Nat := 12

/-- Length of the GCM key (KeyBytes in the source). -/
def KeyBytes : Nat := 32

/-- Key wraps raw symmetric key bytes, as in the source. -/
structure Key where
  raw : Bytes
deriving DecidableEq

/-- FromBytes models symmetric.FromBytes: a key is built from a byte string
only when its length is exactly KeyBytes. -/
def FromBytes (k : Bytes) : Except String Key :=
  if k.length ≠ KeyBytes then .error "invalid key" else .ok ⟨k⟩

/-- Byte-wise shift used by the modelled AES-GCM primitive. -/
def gcmShift (key nonce : Bytes) : Nat := (key.sum + nonce.sum) % 256

/-- Authentication tag of the modelled AES-GCM primitive (16 bytes, as in
real GCM output). -/
def gcmTag (key nonce pt : Bytes) : Bytes :=
  List.replicate 16 ((key.sum + nonce.sum + pt.length) % 256)

/-- Seal of the modelled AES-GCM primitive: shifted plaintext followed by
the authentication tag. -/
def gcmSeal (key nonce pt : Bytes) : Bytes :=
  pt.map (fun b => (b + gcmShift key nonce) % 256) ++ gcmTag key nonce pt

/-- Open of the modelled AES-GCM primitive: undo the shift and check the
authentication tag. -/
def gcmOpen (key nonce ct : Bytes) : Except String Bytes :=
  let body := ct.take (ct.length - 16)
  let tag := ct.drop (ct.length - 16)
  let pt := body.map (fun b => (b + (256 - gcmShift key nonce)) % 256)
  if 16 ≤ ct.length ∧ tag = gcmTag key nonce pt then .ok pt
  else .error "cipher: message authentication failed"

/-- Encrypt models Key.Encrypt: the caller-visible ciphertext is the fresh
12-byte nonce (rand.Read is modelled by passing the nonce in) prepended to
the GCM Seal output computed with the first KeyBytes bytes of the key. -/
def Key.Encrypt (k : Key) (nonce : Bytes) (plaintext : Bytes) : Bytes :=
  nonce ++ gcmSeal (k.raw.take KeyBytes) nonce plaintext

/-- Decrypt models Key.Decrypt: the first NonceBytes bytes are the nonce,
the rest is opened with the same key. -/
def Key.Decrypt (k : Key) (ciphertext : Bytes) : Except String Bytes :=
  gcmOpen (k.raw.take KeyBytes) (ciphertext.take NonceBytes)
    (ciphertext.drop NonceBytes)

theorem gcmShift_lt (key nonce : Bytes) : gcmShift key nonce < 256 :=
  Nat.mod_lt _ (by omega)

theorem gcm_unshift (s b : Nat) (hs : s < 256) (hb : b < 256) :
    ((b + s) % 256 + (256 - s)) % 256 = b := by
  rw [Nat.mod_add_mod]
  have h1 : b + s + (256 - s) = b + 256 := by omega
  rw [h1, Nat.add_mod_right, Nat.mod_eq_of_lt hb]

theorem gcmOpen_gcmSeal (key nonce pt : Bytes) (hpt : ∀ b ∈ pt, b < 256) :
    gcmOpen key nonce (gcmSeal key nonce pt) = .ok pt := by
  have hlen : (pt.map (fun b => (b + gcmShift key nonce) % 256)).length
      = pt.length := List.length_map _ _
  have htake : (gcmSeal key nonce pt).take ((gcmSeal key nonce pt).length - 16)
      = pt.map (fun b => (b + gcmShift key nonce) % 256) := by
    unfold gcmSeal
    rw [List.length_append, gcmTag, List.length_replicate]
    rw [Nat.add_sub_cancel, ← hlen, List.take_left]
  have hdrop : (gcmSeal key nonce pt).drop ((gcmSeal key nonce pt).length - 16)
      = gcmTag key nonce pt := by
    unfold gcmSeal
    rw [List.length_append, gcmTag, List.length_replicate]
    rw [Nat.add_sub_cancel, ← hlen, List.drop_left]
  have hrec : (pt.map (fun b => (b + gcmShift key nonce) % 256)).map
      (fun b => (b + (256 - gcmShift key nonce)) % 256) = pt := by
    rw [List.map_map]
    have : ∀ b ∈ pt,
        ((fun b => (b + (256 - gcmShift key nonce)) % 256) ∘
          (fun b => (b + gcmShift key nonce) % 256)) b = id b := by
      intro b hb
      simp only [Function.comp, id]
      exact gcm_unshift _ b (gcmShift_lt key nonce) (hpt b hb)
    rw [List.map_congr_left this, List.map_id]
  have hlen2 : 16 ≤ (gcmSeal key nonce pt).length := by
    unfold gcmSeal
    rw [List.length_append, gcmTag, List.length_replicate]
    omega
  unfold gcmOpen
  simp only [htake, hdrop, hrec]
  simp [hlen2]

/-- C8: for every 32-byte key and plaintext of bytes, Encrypt produces the
12-byte nonce prepended to the AES-GCM output, Decrypt inverts Encrypt, and
key construction fails on any byte string whose length is not exactly 32. -/
theorem C8_symmetric_encrypt_roundtrip (kb nonce m : Bytes)
    (hk : kb.length = KeyBytes) (hn : nonce.length = NonceBytes)
    (hm : ∀ b ∈ m, b < 256) :
    FromBytes kb = .ok ⟨kb⟩
  ∧ Key.Encrypt ⟨kb⟩ nonce m = nonce ++ gcmSeal kb nonce m
  ∧ Key.Decrypt ⟨kb⟩ (Key.Encrypt ⟨kb⟩ nonce m) = .ok m
  ∧ (∀ kb2 : Bytes, kb2.length ≠ KeyBytes →
      FromBytes kb2 = .error "invalid key") := by
  have hkb : kb.take KeyBytes = kb := by
    rw [← hk, List.take_length]
  refine ⟨?_, ?_, ?_, ?_⟩
  · unfold FromBytes
    simp [hk]
  · unfold Key.Encrypt
    rw [hkb]
  · unfold Key.Decrypt Key.Encrypt
    rw [hkb, ← hn, List.take_left, List.drop_left]
    exact gcmOpen_gcmSeal kb nonce m hm
  · intro kb2 h2
    unfold FromBytes
    simp [h2]

/-- Witness for C8 at a concrete key, nonce and message. -/
theorem C8_symmetric_encrypt_roundtrip_witness :
    FromBytes (List.replicate 32 1) = .ok ⟨List.replicate 32 1⟩
  ∧ Key.Encrypt ⟨List.replicate 32 1⟩ (List.replicate 12 2) [5, 6, 7]
      = List.replicate 12 2 ++ gcmSeal (List.replicate 32 1) (List.replicate 12 2) [5, 6, 7]
  ∧ Key.Decrypt ⟨List.replicate 32 1⟩
      (Key.Encrypt ⟨List.replicate 32 1⟩ (List.replicate 12 2) [5, 6, 7]) = .ok [5, 6, 7]
  ∧ (∀ kb2 : Bytes, kb2.length ≠ KeyBytes →
      FromBytes kb2 = .error "invalid key") :=
  C8_symmetric_encrypt_roundtrip (List.replicate 32 1) (List.replicate 12 2)
    [5, 6, 7] (by decide) (by decide) (by decide)

end symmetric

/-! ## Event dispatcher (src/eventstore/dispatcher.go)

Dispatch persists the event to the datastore under the dispatcher namespace
and only then fires the registered reducers. Reducer goroutines are launched
through an errgroup: all run, and the call errors iff at least one reducer
errored. Reducers carry their own state so that an invocation is
observable. -/

namespace eventstore

/-- An event as consumed by the dispatcher: the byte strings used to build
the datastore key (Time, EntityID, Type) plus the encoded body. -/
structure Event where
  time : String
  entityID : String
  typ : String
  body : String
deriving DecidableEq

/-- Base of the dispatcher namespace in the datastore
(dsStorePrefix.ChildString of the dispatcher component). -/
def dsDispatcherBase : String := "/dispatcher"

/-- Datastore key built by dispatcher.Dispatch:
dispatcher base, then timestamp, entity id and event type components. -/
def dispatcherKey (e : Event) : String :=
  dsDispatcherBase ++ "/" ++ e.time ++ "/" ++ e.entityID ++ "/" ++ e.typ

/-- Gob encoding of an event, modelled as an injective flat serialization. -/
def gobEncode (e : Event) : String :=
  e.time ++ "|" ++ e.entityID ++ "|" ++ e.typ ++ "|" ++ e.body

/-- A flat key-value datastore. The failPut flag injects a persistence
failure, modelling an erroring underlying go-datastore Put. -/
structure Datastore where
  entries : List (String × String)
  failPut : Bool
deriving DecidableEq

/-- Put models datastore.Put: errors when the underlying store fails. -/
def Datastore.put (s : Datastore) (k v : String) : Except String Datastore :=
  if s.failPut then .error "datastore put failed"
  else .ok { s with entries := (k, v) :: s.entries }

/-- A registered reducer together with its private state: Reduce consumes an
event and either errors or returns the updated state. -/
structure Reducer (σ : Type) where
  state : σ
  reduce : Event → σ → Except String σ

/-- The dispatcher: its backing event store and registered reducers. -/
structure Dispatcher (σ : Type) where
  store : Datastore
  reducers : List (Reducer σ)

/-- Run every registered reducer on the event (errgroup semantics: all
reducers run; the call reports an error iff at least one failed; a failed
reducer keeps its previous state). -/
def runReducers {σ : Type} : List (Reducer σ) → Event → List (Reducer σ) × Option String
  | [], _ => ([], none)
  | r :: rest, e =>
    let res := runReducers rest e
    match r.reduce e r.state with
    | .ok s1 => (⟨s1, r.reduce⟩ :: res.1, res.2)
    | .error msg => (r :: res.1, some msg)

/-- Dispatch models dispatcher.Dispatch: encode the event, Put it under the
dispatcher key, and only after a successful Put run the reducers. Returns
the dispatcher state after the call together with its error result. -/
def Dispatcher.Dispatch {σ : Type} (d : Dispatcher σ) (e : Event) :
    Dispatcher σ × Option String :=
  match d.store.put (dispatcherKey e) (gobEncode e) with
  | .error msg => (d, some msg)
  | .ok store1 =>
    let res := runReducers d.reducers e
    (⟨store1, res.1⟩, res.2)

theorem runReducers_err_none {σ : Type} (rs : List (Reducer σ)) (e : Event) :
    (runReducers rs e).2 = none ↔
      ∀ r ∈ rs, ∃ s1, r.reduce e r.state = .ok s1 := by
  induction rs with
  | nil => simp [runReducers]
  | cons r rest ih =>
    simp only [runReducers]
    cases hr : r.reduce e r.state with
    | ok s1 =>
      simp only [List.mem_cons]
      constructor
      · intro h x hx
        rcases hx with hx | hx
        · subst hx; exact ⟨s1, hr⟩
        · exact (ih.mp h) x hx
      · intro h
        exact ih.mpr (fun x hx => h x (Or.inr hx))
    | error msg =>
      simp only [List.mem_cons]
      constructor
      · intro h; exact absurd h (by simp)
      · intro h
        rcases h r (Or.inl rfl) with ⟨s1, hs1⟩
        rw [hr] at hs1
        exact absurd hs1 (by simp)

/-- C1: Dispatch first persists the event durably under the dispatcher key
built from timestamp, entity id and type; reducers run only after the
persist succeeded; a persist failure errors out with reducers untouched; a
reducer failure makes the call error while the event stays persisted. -/
theorem C1_dispatch_persists_then_reduces {σ : Type} (d : Dispatcher σ) (e : Event) :
    (d.store.failPut = true →
      (d.Dispatch e).2.isSome ∧ (d.Dispatch e).1 = d)
  ∧ (d.store.failPut = false →
      ((d.Dispatch e).1.store.entries
          = (dispatcherKey e, gobEncode e) :: d.store.entries)
    ∧ ((d.Dispatch e).2 = (runReducers d.reducers e).2)
    ∧ ((d.Dispatch e).2 = none ↔
        ∀ r ∈ d.reducers, ∃ s1, r.reduce e r.state = .ok s1)) := by
  constructor
  · intro hfail
    unfold Dispatcher.Dispatch Datastore.put
    rw [hfail]
    simp
  · intro hok
    have h1 : d.store.put (dispatcherKey e) (gobEncode e)
        = .ok { d.store with
                 entries := (dispatcherKey e, gobEncode e) :: d.store.entries } := by
      unfold Datastore.put
      rw [hok]
      simp
      exact hok
    unfold Dispatcher.Dispatch
    rw [h1]
    exact ⟨rfl, rfl, runReducers_err_none d.reducers e⟩

/-- Witness for C1: a dispatcher with one succeeding and one failing
reducer over a working store persists the event and reports the reducer
error. -/
theorem C1_dispatch_persists_then_reduces_witness :
    (((⟨⟨[], false⟩, [⟨0, fun _ s => .ok (s + 1)⟩,
        ⟨0, fun _ _ => .error "reducer failed"⟩]⟩ : Dispatcher Nat).Dispatch
          ⟨"t1", "e1", "create", "b"⟩).1.store.entries
        = (dispatcherKey ⟨"t1", "e1", "create", "b"⟩,
           gobEncode ⟨"t1", "e1", "create", "b"⟩) :: [])
  ∧ ((((⟨⟨[], false⟩, [⟨0, fun _ s => .ok (s + 1)⟩,
        ⟨0, fun _ _ => .error "reducer failed"⟩]⟩ : Dispatcher Nat)).Dispatch
          ⟨"t1", "e1", "create", "b"⟩).2
        = (runReducers
            [⟨0, fun _ s => .ok (s + 1)⟩, ⟨0, fun _ _ => .error "reducer failed"⟩]
            ⟨"t1", "e1", "create", "b"⟩).2) :=
  ⟨((C1_dispatch_persists_then_reduces
      ⟨⟨[], false⟩, [⟨0, fun _ s => .ok (s + 1)⟩,
        ⟨0, fun _ _ => .error "reducer failed"⟩]⟩
      ⟨"t1", "e1", "create", "b"⟩).2 rfl).1,
   ((C1_dispatch_persists_then_reduces
      ⟨⟨[], false⟩, [⟨0, fun _ s => .ok (s + 1)⟩,
        ⟨0, fun _ _ => .error "reducer failed"⟩]⟩
      ⟨"t1", "e1", "create", "b"⟩).2 rfl).2.1⟩

end eventstore

/-! ## Head book (lstoreds dsHeadBook, src/unnamed/part_002)

Heads are stored per (thread, log) as a HeadBookRecord. AddHeads reads the
current record, builds the set of preexisting heads once, then appends every
input head that is defined and absent from that preexisting set; the set is
not extended while the input batch is traversed. Heads returns an empty list
and no error when no record exists. -/

namespace lstoreds

/-- Thread identifiers (opaque). -/
abbrev ThreadID := Nat

/-- Peer (log) identifiers (opaque). -/
abbrev PeerID := Nat

/-- Content identifier: the defined flag models cid.Defined (cid.Undef is
the undefined value). -/
structure Cid where
  defined : Bool
  val : Nat
deriving DecidableEq

/-- The head book contents: per (thread, log) key the stored head list, as
persisted under the thread heads namespace. -/
structure HeadBook where
  recs : List ((ThreadID × PeerID) × List Cid)
deriving DecidableEq

/-- Datastore Get for the (thread, log) record. -/
def HeadBook.get (hb : HeadBook) (t : ThreadID) (p : PeerID) : Option (List Cid) :=
  (hb.recs.find? (fun kv => decide (kv.1 = (t, p)))).map Prod.snd

/-- Datastore Put for the (thread, log) record (latest write shadows). -/
def HeadBook.put (hb : HeadBook) (t : ThreadID) (p : PeerID) (v : List Cid) : HeadBook :=
  ⟨((t, p), v) :: hb.recs⟩

/-- The loop body of dsHeadBook.AddHeads: skip undefined heads, skip heads
already in the preexisting set, append the rest. -/
def addHeadsStep (current : List Cid) (acc : List Cid) (h : Cid) : List Cid :=
  if h.defined = false then acc
  else if h ∈ current then acc
  else acc ++ [h]

/-- AddHeads models dsHeadBook.AddHeads: read the current record, fold the
input batch with addHeadsStep over the preexisting head set, and store the
result. -/
def HeadBook.AddHeads (hb : HeadBook) (t : ThreadID) (p : PeerID) (heads : List Cid) :
    HeadBook :=
  let current := (hb.get t p).getD []
  hb.put t p (heads.foldl (addHeadsStep current) current)

/-- AddHead models dsHeadBook.AddHead: a one-element AddHeads. -/
def HeadBook.AddHead (hb : HeadBook) (t : ThreadID) (p : PeerID) (head : Cid) : HeadBook :=
  hb.AddHeads t p [head]

/-- Heads models dsHeadBook.Heads: a missing record yields an empty list
and no error. -/
def HeadBook.Heads (hb : HeadBook) (t : ThreadID) (p : PeerID) :
    Except String (List Cid) :=
  match hb.get t p with
  | none => .ok []
  | some v => .ok v

theorem HeadBook.get_put_head (hb : HeadBook) (t : ThreadID) (p : PeerID) (v : List Cid) :
    (hb.put t p v).get t p = some v := by
  unfold HeadBook.put HeadBook.get
  rw [List.find?_cons_of_pos]
  · rfl
  · simp

theorem addHeads_foldl_spec (current : List Cid) (heads : List Cid) :
    ∀ pre : List Cid,
      ∃ added, heads.foldl (addHeadsStep current) (current ++ pre)
          = current ++ (pre ++ added)
        ∧ ∀ c ∈ added, c ∈ heads ∧ c.defined = true ∧ c ∉ current := by
  induction heads with
  | nil =>
    intro pre
    exact ⟨[], by simp [List.foldl], by simp⟩
  | cons h hs ih =>
    intro pre
    by_cases hd : h.defined = false
    · rcases ih pre with ⟨added, heq, hprop⟩
      refine ⟨added, ?_, ?_⟩
      · simpa [List.foldl, addHeadsStep, hd] using heq
      · intro c hc
        rcases hprop c hc with ⟨h1, h2, h3⟩
        exact ⟨List.mem_cons_of_mem _ h1, h2, h3⟩
    · by_cases hmem : h ∈ current
      · rcases ih pre with ⟨added, heq, hprop⟩
        refine ⟨added, ?_, ?_⟩
        · simpa [List.foldl, addHeadsStep, hd, hmem] using heq
        · intro c hc
          rcases hprop c hc with ⟨h1, h2, h3⟩
          exact ⟨List.mem_cons_of_mem _ h1, h2, h3⟩
      · rcases ih (pre ++ [h]) with ⟨added, heq, hprop⟩
        refine ⟨[h] ++ added, ?_, ?_⟩
        · have hstep : addHeadsStep current (current ++ pre) h
              = current ++ (pre ++ [h]) := by
            simp [addHeadsStep, hd, hmem]
          calc (h :: hs).foldl (addHeadsStep current) (current ++ pre)
              = hs.foldl (addHeadsStep current) (current ++ (pre ++ [h])) := by
                rw [List.foldl_cons, hstep]
            _ = current ++ ((pre ++ [h]) ++ added) := heq
            _ = current ++ (pre ++ ([h] ++ added)) := by simp
        · intro c hc
          rcases List.mem_append.mp hc with hc | hc

          · rcases List.mem_singleton.mp hc with rfl
            exact ⟨List.mem_cons_self _ _, by simpa using hd, hmem⟩
          · rcases hprop c hc with ⟨h1, h2, h3⟩
            exact ⟨List.mem_cons_of_mem _ h1, h2, h3⟩

/-- Counterexample to C10 as stated: a batch that repeats a fresh head
stores it twice, because the preexisting-head set is not extended during
the batch loop. -/
theorem C10_counterexample :
    ∃ l, ((HeadBook.mk []).AddHeads 1 2 [⟨true, 7⟩, ⟨true, 7⟩]).Heads 1 2 = .ok l
      ∧ ¬ l.Nodup := by
  refine ⟨[⟨true, 7⟩, ⟨true, 7⟩], by rfl, by decide⟩

/-- C10 amended: Heads yields an empty list and no error when no heads were
recorded; AddHeads stores the previous heads followed only by input heads
that are defined and were absent before the call (already-present heads are
no-ops, undefined cids are skipped); duplicates inside a single batch are
not collapsed. -/
theorem C10_headbook_heads_addheads (hb : HeadBook) (t : ThreadID) (p : PeerID)
    (heads : List Cid) :
    (hb.get t p = none → hb.Heads t p = .ok [])
  ∧ ∃ added, ((hb.AddHeads t p heads).Heads t p
        = .ok ((hb.get t p).getD [] ++ added)
      ∧ ∀ c ∈ added, c ∈ heads ∧ c.defined = true ∧ c ∉ (hb.get t p).getD []) := by
  constructor
  · intro hnone
    unfold HeadBook.Heads
    rw [hnone]
  · rcases addHeads_foldl_spec ((hb.get t p).getD []) heads [] with ⟨added, heq, hprop⟩
    refine ⟨added, ?_, hprop⟩
    have h2 : heads.foldl (addHeadsStep ((hb.get t p).getD [])) ((hb.get t p).getD [])
        = (hb.get t p).getD [] ++ added := by simpa using heq
    unfold HeadBook.AddHeads
    unfold HeadBook.Heads
    rw [HeadBook.get_put_head, h2]

/-- Witness for the amended C10 on an empty head book and a batch holding
an undefined and a defined head. -/
theorem C10_headbook_heads_addheads_witness :
    (HeadBook.mk []).Heads 1 2 = .ok []
  ∧ ∃ added, (((HeadBook.mk []).AddHeads 1 2 [⟨false, 3⟩, ⟨true, 7⟩]).Heads 1 2
        = .ok (((HeadBook.mk []).get 1 2).getD [] ++ added)
      ∧ ∀ c ∈ added, c ∈ [Cid.mk false 3, Cid.mk true 7] ∧ c.defined = true
        ∧ c ∉ ((HeadBook.mk []).get 1 2).getD []) :=
  ⟨(C10_headbook_heads_addheads (HeadBook.mk []) 1 2 [⟨false, 3⟩, ⟨true, 7⟩]).1 rfl,
   (C10_headbook_heads_addheads (HeadBook.mk []) 1 2 [⟨false, 3⟩, ⟨true, 7⟩]).2⟩

end lstoreds

/-! ## Collection engine: secondary indexes (src/db/collection.go, index part)

Index buckets map an index key (collection, path, extracted value) to a
keyList: a sorted list of unique instance keys. indexUpdate silently skips
instances with no value at the indexed path and rejects overlapping inserts
into unique indexes. -/

namespace db

/-- Errors surfaced by the collection engine. -/
inductive DbError
  | notFound
  | readonlyTx
  | invalidSchemaInstance
  | alreadyDiscardedCommitedTxn
  | cantCreateExistingInstance
  | cantSaveNonExistentInstance
  | uniqueExists
  | notIndexable
  | other (msg : String)
deriving DecidableEq

/-- Byte-string comparison modelling bytes.Compare. -/
def bytesCompare : Bytes → Bytes → Ordering
  | [], [] => .eq
  | [], _ :: _ => .lt
  | _ :: _, [] => .gt
  | a :: as, b :: bs =>
    if a < b then .lt else if b < a then .gt else bytesCompare as bs

/-- Strict byte-string order induced by bytesCompare. -/
def bLt (x y : Bytes) : Prop := bytesCompare x y = .lt

theorem bytesCompare_self : ∀ x : Bytes, bytesCompare x x = .eq
  | [] => rfl
  | a :: as => by
    unfold bytesCompare
    simp [bytesCompare_self as]

theorem bytesCompare_gt_iff : ∀ x y : Bytes,
    bytesCompare x y = .gt ↔ bytesCompare y x = .lt
  | [], [] => by simp [bytesCompare]
  | [], _ :: _ => by simp [bytesCompare]
  | _ :: _, [] => by simp [bytesCompare]
  | a :: as, b :: bs => by
    unfold bytesCompare
    rcases Nat.lt_trichotomy a b with h | h | h
    · simp [h, Nat.not_lt_of_lt h, Nat.ne_of_lt h]
    · subst h
      simp [Nat.lt_irrefl, bytesCompare_gt_iff as bs]
    · simp [h, Nat.not_lt_of_lt h, Nat.ne_of_lt h]

theorem bLt_trans : ∀ x y z : Bytes, bLt x y → bLt y z → bLt x z := by
  intro x
  induction x with
  | nil =>
    intro y z hxy hyz
    cases z with
    | nil =>
      exfalso
      cases y with
      | nil => exact absurd hxy (by simp [bLt, bytesCompare])
      | cons b bs => exact absurd hyz (by simp [bLt, bytesCompare])
    | cons c cs => simp [bLt, bytesCompare]
  | cons a as ih =>
    intro y z hxy hyz
    cases y with
    | nil => exact absurd hxy (by simp [bLt, bytesCompare])
    | cons b bs =>
      cases z with
      | nil => exact absurd hyz (by simp [bLt, bytesCompare])
      | cons c cs =>
        unfold bLt bytesCompare at hxy hyz ⊢
        by_cases h1 : a < b
        · have hbc : b < c ∨ b = c := by
            by_cases h2 : b < c
            · exact Or.inl h2
            · by_cases h3 : c < b
              · exfalso; simp [h2, h3] at hyz
              · exact Or.inr (by omega)
          have hac : a < c := by rcases hbc with h | h <;> omega
          simp [hac]
        · by_cases h1b : b < a
          · simp [h1, h1b] at hxy
          · have hab : a = b := by omega
            subst hab
            simp [h1, h1b] at hxy
            by_cases h2 : a < c
            · simp [h2]
            · by_cases h3 : c < a
              · simp [h2, h3] at hyz
              · have hac : a = c := by omega
                subst hac
                simp [h2, h3] at hyz ⊢
                exact ih bs cs hxy hyz

/-- The first position whose entry is not below the probe (the sort.Search
boundary used by keyList add and remove). -/
def searchGe : List Bytes → Bytes → Nat
  | [], _ => 0
  | x :: xs, b => if bytesCompare x b = .lt then searchGe xs b + 1 else 0

/-- keyList.add models the sort.Search based insert of collection.go: on a
sorted list it walks to the boundary, keeps the list unchanged when the key
is already present, and splices the key in otherwise. -/
def keyList.add : List Bytes → Bytes → List Bytes
  | [], b => [b]
  | x :: xs, b =>
    match bytesCompare x b with
    | .lt => x :: keyList.add xs b
    | .eq => x :: xs
    | .gt => b :: x :: xs

/-- keyList.remove models the sort.Search based removal: deletes the entry
at the boundary position when one exists. -/
def keyList.remove : List Bytes → Bytes → List Bytes
  | [], _ => []
  | x :: xs, b =>
    match bytesCompare x b with
    | .lt => x :: keyList.remove xs b
    | _ => xs

theorem keyList.mem_add : ∀ (v : List Bytes) (b c : Bytes),
    c ∈ keyList.add v b → c = b ∨ c ∈ v := by
  intro v
  induction v with
  | nil =>
    intro b c hc
    simpa [keyList.add] using hc
  | cons x xs ih =>
    intro b c hc
    unfold keyList.add at hc
    split at hc
    · rcases List.mem_cons.mp hc with rfl | hc
      · exact Or.inr (List.mem_cons_self _ _)
      · rcases ih b c hc with h | h
        · exact Or.inl h
        · exact Or.inr (List.mem_cons_of_mem _ h)
    · exact Or.inr hc
    · rcases List.mem_cons.mp hc with rfl | hc
      · exact Or.inl rfl
      · exact Or.inr hc

theorem keyList.add_pairwise : ∀ (v : List Bytes) (b : Bytes),
    List.Pairwise bLt v → List.Pairwise bLt (keyList.add v b) := by
  intro v
  induction v with
  | nil =>
    intro b _
    simp [keyList.add]
  | cons x xs ih =>
    intro b hp
    rcases List.pairwise_cons.mp hp with ⟨hx, hxs⟩
    unfold keyList.add
    cases hcmp : bytesCompare x b with
    | lt =>
      refine List.pairwise_cons.mpr ⟨?_, ih b hxs⟩
      intro y hy
      rcases keyList.mem_add xs b y hy with rfl | hy
      · exact hcmp
      · exact hx y hy
    | eq => exact hp
    | gt =>
      have hbx : bLt b x := (bytesCompare_gt_iff x b).mp hcmp
      refine List.pairwise_cons.mpr ⟨?_, hp⟩
      intro y hy
      rcases List.mem_cons.mp hy with rfl | hy
      · exact hbx
      · exact bLt_trans b x y hbx (hx y hy)

theorem keyList.add_ne_nil (v : List Bytes) (b : Bytes) : keyList.add v b ≠ [] := by
  cases v with
  | nil => simp [keyList.add]
  | cons x xs =>
    unfold keyList.add
    split <;> simp

theorem pairwise_bLt_nodup (v : List Bytes) (h : List.Pairwise bLt v) : v.Nodup := by
  apply List.Pairwise.imp ?_ h
  intro a b hab heq
  rw [heq] at hab
  unfold bLt at hab
  rw [bytesCompare_self] at hab
  exact absurd hab (by simp)

/-- Index configuration: path in dot syntax plus the unique flag. -/
structure Index where
  path : String
  unique : Bool
deriving DecidableEq

/-- Index bucket storage visible to one datastore transaction. -/
structure IndexTx where
  buckets : List (String × List Bytes)
deriving DecidableEq

/-- Transaction Get on an index bucket. -/
def IndexTx.get (tx : IndexTx) (k : String) : Option (List Bytes) :=
  (tx.buckets.find? (fun kv => decide (kv.1 = k))).map Prod.snd

/-- Transaction Put on an index bucket (latest write shadows). -/
def IndexTx.put (tx : IndexTx) (k : String) (v : List Bytes) : IndexTx :=
  ⟨(k, v) :: tx.buckets⟩

/-- Transaction Delete on an index bucket. -/
def IndexTx.del (tx : IndexTx) (k : String) : IndexTx :=
  ⟨tx.buckets.filter (fun kv => decide (kv.1 ≠ k))⟩

theorem IndexTx.get_put_bucket (tx : IndexTx) (k : String) (v : List Bytes) :
    (tx.put k v).get k = some v := by
  unfold IndexTx.put IndexTx.get
  rw [List.find?_cons_of_pos]
  · rfl
  · simp

/-- Instances are opaque JSON; for index extraction they are modelled as a
flat field map, and getIndexValue models the gjson path lookup: a missing
path yields ErrNotIndexable. -/
def getIndexValue (field : String) (input : List (String × String)) :
    Except DbError String :=
  match input.find? (fun kv => decide (kv.1 = field)) with
  | none => .error .notIndexable
  | some kv => .ok kv.2

/-- Datastore key of an index bucket
(indexPrefix.Child(baseKey).ChildString(field).ChildString(value)). -/
def mkIndexKey (cname field value : String) : String :=
  "/_index/db/collection/" ++ cname ++ "/" ++ field ++ "/" ++ value

/-- indexUpdate models Collection.indexUpdate: skip when the path has no
value; reject a non-delete insert into a unique index whose bucket exists;
otherwise add or remove the instance key in the bucket keyList, deleting
the bucket when it empties. -/
def Collection.indexUpdate (cname field : String) (index : Index) (tx : IndexTx)
    (key : Bytes) (input : List (String × String)) (del : Bool) :
    Except DbError IndexTx :=
  match getIndexValue field input with
  | .error _ => .ok tx
  | .ok value =>
    let indexKey := mkIndexKey cname field value
    let data := tx.get indexKey
    if data.isSome ∧ index.unique = true ∧ del = false then .error .uniqueExists
    else
      let indexValue := data.getD []
      let indexValue := if del then keyList.remove indexValue key
                        else keyList.add indexValue key
      if indexValue.length = 0 then .ok (tx.del indexKey)
      else .ok (tx.put indexKey indexValue)

/-- C7: an index update on an instance with no value at the indexed path
succeeds leaving the transaction unchanged; a non-delete update into a
unique index whose computed value already has a bucket fails with the
unique-constraint violation; and a successful non-unique insert stores
keyList.add of the old bucket, which stays sorted and duplicate-free. -/
theorem C7_index_update_cases (cname field : String) (index : Index) (tx : IndexTx)
    (key : Bytes) (input : List (String × String)) :
    (getIndexValue field input = .error .notIndexable →
      ∀ del, Collection.indexUpdate cname field index tx key input del = .ok tx)
  ∧ (∀ value, getIndexValue field input = .ok value →
      index.unique = true →
      (tx.get (mkIndexKey cname field value)).isSome = true →
      Collection.indexUpdate cname field index tx key input false
        = .error .uniqueExists)
  ∧ (∀ value, getIndexValue field input = .ok value →
      index.unique = false →
      ∃ tx2, Collection.indexUpdate cname field index tx key input false = .ok tx2
        ∧ tx2.get (mkIndexKey cname field value)
            = some (keyList.add ((tx.get (mkIndexKey cname field value)).getD []) key)
        ∧ (List.Pairwise bLt ((tx.get (mkIndexKey cname field value)).getD []) →
            List.Pairwise bLt
              (keyList.add ((tx.get (mkIndexKey cname field value)).getD []) key)
          ∧ (keyList.add ((tx.get (mkIndexKey cname field value)).getD []) key).Nodup)) := by
  refine ⟨?_, ?_, ?_⟩
  · intro hmiss del
    unfold Collection.indexUpdate
    rw [hmiss]
  · intro value hv huniq hsome
    unfold Collection.indexUpdate
    rw [hv]
    simp only [huniq, hsome]
    simp
  · intro value hv huniq
    refine ⟨tx.put (mkIndexKey cname field value)
      (keyList.add ((tx.get (mkIndexKey cname field value)).getD []) key), ?_, ?_, ?_⟩
    · unfold Collection.indexUpdate
      rw [hv]
      simp only [huniq]
      have hne := keyList.add_ne_nil ((tx.get (mkIndexKey cname field value)).getD []) key
      simp [List.length_eq_zero, hne]
    · exact IndexTx.get_put_bucket tx _ _
    · intro hsorted
      have hp := keyList.add_pairwise _ key hsorted
      exact ⟨hp, pairwise_bLt_nodup _ hp⟩

/-- Witness for C7: a missing path is skipped, a unique collision errors,
and a non-unique insert extends the bucket, at concrete inputs. -/
theorem C7_index_update_cases_witness :
    (Collection.indexUpdate "books" "author" ⟨"author", false⟩ ⟨[]⟩ [3]
        [("title", "T1")] true = .ok ⟨[]⟩)
  ∧ (Collection.indexUpdate "books" "email" ⟨"email", true⟩
        ⟨[(mkIndexKey "books" "email" "a", [[1]])]⟩ [2]
        [("email", "a")] false = .error .uniqueExists)
  ∧ (∃ tx2, Collection.indexUpdate "books" "author" ⟨"author", false⟩
        ⟨[(mkIndexKey "books" "author" "A1", [[1]])]⟩ [2]
        [("author", "A1")] false = .ok tx2
      ∧ tx2.get (mkIndexKey "books" "author" "A1")
          = some (keyList.add ((IndexTx.get ⟨[(mkIndexKey "books" "author" "A1", [[1]])]⟩
              (mkIndexKey "books" "author" "A1")).getD []) [2])
      ∧ (List.Pairwise bLt ((IndexTx.get ⟨[(mkIndexKey "books" "author" "A1", [[1]])]⟩
              (mkIndexKey "books" "author" "A1")).getD []) →
          List.Pairwise bLt (keyList.add ((IndexTx.get ⟨[(mkIndexKey "books" "author" "A1", [[1]])]⟩
              (mkIndexKey "books" "author" "A1")).getD []) [2])
        ∧ (keyList.add ((IndexTx.get ⟨[(mkIndexKey "books" "author" "A1", [[1]])]⟩
              (mkIndexKey "books" "author" "A1")).getD []) [2]).Nodup)) :=
  ⟨(C7_index_update_cases "books" "author" ⟨"author", false⟩ ⟨[]⟩ [3]
      [("title", "T1")]).1 rfl true,
   (C7_index_update_cases "books" "email" ⟨"email", true⟩
      ⟨[(mkIndexKey "books" "email" "a", [[1]])]⟩ [2]
      [("email", "a")]).2.1 "a" rfl rfl rfl,
   (C7_index_update_cases "books" "author" ⟨"author", false⟩
      ⟨[(mkIndexKey "books" "author" "A1", [[1]])]⟩ [2]
      [("author", "A1")]).2.2 "A1" rfl rfl⟩

/-! ## Collection engine: transactions (src/db/collection.go, src/db/db.go)

A write transaction buffers actions; Commit encodes them through the event
codec, dispatches the events, and notifies listeners. Only Commit consults
the discarded/commited flags; Create, Save and Delete check just the
readonly flag. -/

/-- A collection instance: its ID attribute plus the rest of the JSON
bytes, kept opaque. -/
structure Instance where
  id : String
  data : String
deriving DecidableEq

/-- A collection: its name and JSON schema, the schema modelled as the
decidable validity predicate computed by gojsonschema.Validate. -/
structure Collection where
  name : String
  schema : Instance → Bool

/-- Action types buffered by a transaction. -/
inductive ActionType
  | create
  | save
  | delete
deriving DecidableEq

/-- An action buffered by a write transaction. -/
structure Action where
  typ : ActionType
  instanceID : String
  collectionName : String
  previous : Option Instance
  current : Option Instance

/-- Transaction state, as in collection.go. -/
structure Txn where
  collection : Collection
  discarded : Bool
  commited : Bool
  readonly : Bool
  actions : List Action

/-- The instance datastore: keys to instances. -/
abbrev InstanceStore := List (String × Instance)

/-- Datastore key of one instance (baseKey, collection name, id). -/
def instanceKey (cname id : String) : String :=
  "/db/collection/" ++ cname ++ "/" ++ id

/-- Datastore Has. -/
def dsHas (ds : InstanceStore) (k : String) : Bool :=
  ds.any (fun kv => decide (kv.1 = k))

/-- Datastore Get. -/
def dsGet (ds : InstanceStore) (k : String) : Option Instance :=
  (ds.find? (fun kv => decide (kv.1 = k))).map Prod.snd

/-- setNewInstanceID models the jsonpatch merge of a fresh UUID into the
instance bytes; the generated UUID itself (core.NewInstanceID) is passed in
by the caller, modelling the random generator. -/
def setNewInstanceID (inst : Instance) (newID : String) : Instance :=
  { inst with id := newID }

/-- One iteration of the Txn.Create loop: readonly check, schema
validation, fresh-id patching for an empty id, existence check, and action
buffering. -/
def Txn.create1 (ds : InstanceStore) (t : Txn) (inst : Instance) (newID : String) :
    Except DbError Txn :=
  if t.readonly = true then .error .readonlyTx
  else if t.collection.schema inst = false then .error .invalidSchemaInstance
  else
    let idinst := if inst.id = "" then (newID, setNewInstanceID inst newID)
                  else (inst.id, inst)
    if dsHas ds (instanceKey t.collection.name idinst.1) = true then
      .error .cantCreateExistingInstance
    else .ok { t with actions := t.actions ++
      [⟨.create, idinst.1, t.collection.name, none, some idinst.2⟩] }

/-- Txn.Create over a batch; each instance is paired with the fresh id
used if its own id is empty. -/
def Txn.Create (ds : InstanceStore) (t : Txn) :
    List (Instance × String) → Except DbError Txn
  | [] => .ok t
  | (inst, u) :: rest =>
    match Txn.create1 ds t inst u with
    | .error e => .error e
    | .ok t1 => Txn.Create ds t1 rest

/-- One iteration of the Txn.Save loop. -/
def Txn.save1 (ds : InstanceStore) (t : Txn) (inst : Instance) : Except DbError Txn :=
  if t.readonly = true then .error .readonlyTx
  else if t.collection.schema inst = false then .error .invalidSchemaInstance
  else
    match dsGet ds (instanceKey t.collection.name inst.id) with
    | none => .error .cantSaveNonExistentInstance
    | some before => .ok { t with actions := t.actions ++
        [⟨.save, inst.id, t.collection.name, some before, some inst⟩] }

/-- Txn.Save over a batch. -/
def Txn.Save (ds : InstanceStore) (t : Txn) : List Instance → Except DbError Txn
  | [] => .ok t
  | inst :: rest =>
    match Txn.save1 ds t inst with
    | .error e => .error e
    | .ok t1 => Txn.Save ds t1 rest

/-- One iteration of the Txn.Delete loop. -/
def Txn.delete1 (ds : InstanceStore) (t : Txn) (id : String) : Except DbError Txn :=
  if t.readonly = true then .error .readonlyTx
  else if dsHas ds (instanceKey t.collection.name id) = false then .error .notFound
  else .ok { t with actions := t.actions ++
    [⟨.delete, id, t.collection.name, none, none⟩] }

/-- Txn.Delete over a batch of ids. -/
def Txn.Delete (ds : InstanceStore) (t : Txn) : List String → Except DbError Txn
  | [] => .ok t
  | id :: rest =>
    match Txn.delete1 ds t id with
    | .error e => .error e
    | .ok t1 => Txn.Delete ds t1 rest

/-- Discard models Txn.Discard. -/
def Txn.Discard (t : Txn) : Txn := { t with discarded := true }

/-- A decoded db event as produced by the event codec. -/
structure DbEvent where
  typ : ActionType
  instanceID : String
  collectionName : String
  current : Option Instance
deriving DecidableEq

/-- Modelled from the spec: the default event codec Create, which encodes
the buffered actions of one transaction into one event per action plus one
serialized event block node for the batch (both empty for an empty
batch). The codec implementation (jsonpatcher) is not under src. -/
def eventcodecCreate (actions : List Action) : List DbEvent × Option (List DbEvent) :=
  let events := actions.map (fun a => ⟨a.typ, a.instanceID, a.collectionName, a.current⟩)
  (events, if events.isEmpty = true then none else some events)

/-- Apply one event to the instance datastore (the DB reducer driving the
collection engine on dispatch). -/
def applyEvent (ds : InstanceStore) (e : DbEvent) : InstanceStore :=
  match e.typ, e.current with
  | .delete, _ =>
      ds.filter (fun kv => decide (kv.1 ≠ instanceKey e.collectionName e.instanceID))
  | _, some inst => (instanceKey e.collectionName e.instanceID, inst) ::
      ds.filter (fun kv => decide (kv.1 ≠ instanceKey e.collectionName e.instanceID))
  | _, none => ds

/-- Aggregate state owned by one DB: the instance datastore, the dispatcher
event store, and the notifications sent on the local events bus. -/
structure DBState where
  datastore : InstanceStore
  dispatcherStore : List DbEvent
  notifications : List (List DbEvent)
deriving DecidableEq

/-- Dispatch of a commit batch at the DB level: persist the events and run
the DB reducer over the datastore. -/
def dispatchAll (db : DBState) (events : List DbEvent) : DBState :=
  { db with dispatcherStore := db.dispatcherStore ++ events,
            datastore := events.foldl applyEvent db.datastore }

/-- Commit models Txn.Commit: reject discarded or commited transactions,
encode the buffered actions, dispatch the events and notify listeners of
the serialized node. -/
def Txn.Commit (db : DBState) (t : Txn) : DBState × Option DbError :=
  if t.discarded = true ∨ t.commited = true then
    (db, some .alreadyDiscardedCommitedTxn)
  else
    let en := eventcodecCreate t.actions
    match en.2 with
    | none => (db, none)
    | some node =>
      let db1 := dispatchAll db en.1
      ({ db1 with notifications := db1.notifications ++ [node] }, none)

/-- writeTxn models DB.writeTxn: build a fresh write transaction, run the
body, return its error without committing when it fails, otherwise
commit. -/
def DB.writeTxn (db : DBState) (c : Collection) (f : Txn → Except DbError Txn) :
    DBState × Option DbError :=
  let txn : Txn := ⟨c, false, false, false, []⟩
  match f txn with
  | .error e => (db, some e)
  | .ok txn1 => Txn.Commit db txn1

/-- C5: in a write transaction, create validates against the schema and
rejects non-conforming instances; an empty id is replaced by the generated
fresh id patched into the buffered instance; an id that already exists in
the datastore fails with the already-exists error. -/
theorem C5_txn_create_batch (ds : InstanceStore) (t : Txn) (inst : Instance)
    (u : String) (hro : t.readonly = false) :
    (t.collection.schema inst = false →
      Txn.Create ds t [(inst, u)] = .error .invalidSchemaInstance)
  ∧ (t.collection.schema inst = true → inst.id = "" →
      dsHas ds (instanceKey t.collection.name u) = false →
      Txn.Create ds t [(inst, u)] = .ok { t with actions := t.actions ++
        [⟨.create, u, t.collection.name, none, some (setNewInstanceID inst u)⟩] })
  ∧ (t.collection.schema inst = true → inst.id ≠ "" →
      dsHas ds (instanceKey t.collection.name inst.id) = true →
      Txn.Create ds t [(inst, u)] = .error .cantCreateExistingInstance) := by
  refine ⟨?_, ?_, ?_⟩
  · intro hbad
    unfold Txn.Create Txn.create1
    simp [hro, hbad]
  · intro hgood hempty hnew
    unfold Txn.Create Txn.create1
    simp [hro, hgood, hempty, hnew]
    rfl
  · intro hgood hnonempty hexists
    unfold Txn.Create Txn.create1
    simp [hro, hgood, hnonempty, hexists]

/-- Witness for C5 at concrete instances: schema violation, fresh-id create
and duplicate create. -/
theorem C5_txn_create_batch_witness :
    (Txn.Create [] ⟨⟨"books", fun i => decide (i.data ≠ "")⟩, false, false, false, []⟩
        [(⟨"", ""⟩, "u1")] = .error .invalidSchemaInstance)
  ∧ (Txn.Create [] ⟨⟨"books", fun i => decide (i.data ≠ "")⟩, false, false, false, []⟩
        [(⟨"", "d"⟩, "u1")] = .ok
          { (⟨⟨"books", fun i => decide (i.data ≠ "")⟩, false, false, false, []⟩ : Txn)
            with actions := [] ++
              [⟨.create, "u1", "books", none, some (setNewInstanceID ⟨"", "d"⟩ "u1")⟩] })
  ∧ (Txn.Create [(instanceKey "books" "i1", ⟨"i1", "d"⟩)]
        ⟨⟨"books", fun i => decide (i.data ≠ "")⟩, false, false, false, []⟩
        [(⟨"i1", "d"⟩, "u1")] = .error .cantCreateExistingInstance) :=
  ⟨(C5_txn_create_batch [] ⟨⟨"books", fun i => decide (i.data ≠ "")⟩, false, false, false, []⟩
      ⟨"", ""⟩ "u1" rfl).1 rfl,
   (C5_txn_create_batch [] ⟨⟨"books", fun i => decide (i.data ≠ "")⟩, false, false, false, []⟩
      ⟨"", "d"⟩ "u1" rfl).2.1 rfl rfl rfl,
   (C5_txn_create_batch [(instanceKey "books" "i1", ⟨"i1", "d"⟩)]
      ⟨⟨"books", fun i => decide (i.data ≠ "")⟩, false, false, false, []⟩
      ⟨"i1", "d"⟩ "u1" rfl).2.2 rfl (by decide) rfl⟩

theorem Txn.create1_flags (ds : InstanceStore) (inst : Instance) (u : String)
    (t : Txn) (d c : Bool) :
    Txn.create1 ds { t with discarded := d, commited := c } inst u
      = (Txn.create1 ds { t with discarded := false, commited := false } inst u).map
          (fun t2 => { t2 with discarded := d, commited := c }) := by
  unfold Txn.create1
  by_cases h1 : t.readonly = true
  · simp [h1, Except.map]
  · by_cases h2 : t.collection.schema inst = false
    · simp [h1, h2, Except.map]
    · by_cases h3 : dsHas ds (instanceKey t.collection.name
          (if inst.id = "" then (u, setNewInstanceID inst u) else (inst.id, inst)).1) = true
      · simp [h1, h2, h3, Except.map]
      · simp [h1, h2, h3, Except.map]

theorem Txn.save1_flags (ds : InstanceStore) (inst : Instance)
    (t : Txn) (d c : Bool) :
    Txn.save1 ds { t with discarded := d, commited := c } inst
      = (Txn.save1 ds { t with discarded := false, commited := false } inst).map
          (fun t2 => { t2 with discarded := d, commited := c }) := by
  unfold Txn.save1
  by_cases h1 : t.readonly = true
  · simp [h1, Except.map]
  · by_cases h2 : t.collection.schema inst = false
    · simp [h1, h2, Except.map]
    · cases hg : dsGet ds (instanceKey t.collection.name inst.id) with
      | none => simp [h1, h2, hg, Except.map]
      | some before => simp [h1, h2, hg, Except.map]

theorem Txn.delete1_flags (ds : InstanceStore) (id : String)
    (t : Txn) (d c : Bool) :
    Txn.delete1 ds { t with discarded := d, commited := c } id
      = (Txn.delete1 ds { t with discarded := false, commited := false } id).map
          (fun t2 => { t2 with discarded := d, commited := c }) := by
  unfold Txn.delete1
  by_cases h1 : t.readonly = true
  · simp [h1, Except.map]
  · by_cases h2 : dsHas ds (instanceKey t.collection.name id) = false
    · simp [h1, h2, Except.map]
    · simp [h1, h2, Except.map]

/-- Counterexample to C6 as stated: Txn.Create does not consult the
terminal flags, so a create on a discarded transaction still succeeds. -/
theorem C6_counterexample :
    ∃ t2, Txn.Create []
        (Txn.Discard ⟨⟨"books", fun _ => true⟩, false, false, false, []⟩)
        [(⟨"i1", "d"⟩, "u1")] = .ok t2
      ∧ t2.discarded = true :=
  ⟨_, rfl, rfl⟩

/-- C6 amended: once a transaction is terminal (discarded or commited),
Commit fails with the already-terminated error; Create, Save and Delete do
not consult the terminal flags, so they behave exactly as on an open
transaction with the same contents. -/
theorem C6_terminal_guards_commit_only (db : DBState) (t : Txn)
    (hterm : t.discarded = true ∨ t.commited = true) :
    Txn.Commit db t = (db, some .alreadyDiscardedCommitedTxn)
  ∧ (∀ ds inst u, Txn.create1 ds t inst u
      = (Txn.create1 ds { t with discarded := false, commited := false } inst u).map
          (fun t2 => { t2 with discarded := t.discarded, commited := t.commited }))
  ∧ (∀ ds inst, Txn.save1 ds t inst
      = (Txn.save1 ds { t with discarded := false, commited := false } inst).map
          (fun t2 => { t2 with discarded := t.discarded, commited := t.commited }))
  ∧ (∀ ds id, Txn.delete1 ds t id
      = (Txn.delete1 ds { t with discarded := false, commited := false } id).map
          (fun t2 => { t2 with discarded := t.discarded, commited := t.commited })) := by
  refine ⟨?_, ?_, ?_, ?_⟩
  · unfold Txn.Commit
    simp [hterm]
  · intro ds inst u
    exact Txn.create1_flags ds inst u t t.discarded t.commited
  · intro ds inst
    exact Txn.save1_flags ds inst t t.discarded t.commited
  · intro ds id
    exact Txn.delete1_flags ds id t t.discarded t.commited

/-- Witness for the amended C6 on a concrete discarded transaction. -/
theorem C6_terminal_guards_commit_only_witness :
    Txn.Commit ⟨[], [], []⟩
        (Txn.Discard ⟨⟨"books", fun _ => true⟩, false, false, false, []⟩)
      = (⟨[], [], []⟩, some .alreadyDiscardedCommitedTxn)
  ∧ (∀ ds inst u, Txn.create1 ds
        (Txn.Discard ⟨⟨"books", fun _ => true⟩, false, false, false, []⟩) inst u
      = (Txn.create1 ds
          { Txn.Discard ⟨⟨"books", fun _ => true⟩, false, false, false, []⟩ with
              discarded := false, commited := false } inst u).map
          (fun t2 => { t2 with
              discarded := (Txn.Discard
                ⟨⟨"books", fun _ => true⟩, false, false, false, []⟩).discarded,
              commited := (Txn.Discard
                ⟨⟨"books", fun _ => true⟩, false, false, false, []⟩).commited })) :=
  ⟨(C6_terminal_guards_commit_only ⟨[], [], []⟩
      (Txn.Discard ⟨⟨"books", fun _ => true⟩, false, false, false, []⟩)
      (Or.inl rfl)).1,
   (C6_terminal_guards_commit_only ⟨[], [], []⟩
      (Txn.Discard ⟨⟨"books", fun _ => true⟩, false, false, false, []⟩)
      (Or.inl rfl)).2.1⟩

/-- C9: a write transaction whose body errors is not committed: writeTxn
returns the error and the DB state (datastore, dispatcher store, listener
notifications) is unchanged. -/
theorem C9_writeTxn_error_aborts (db : DBState) (c : Collection)
    (f : Txn → Except DbError Txn) (e : DbError)
    (hf : f ⟨c, false, false, false, []⟩ = .error e) :
    DB.writeTxn db c f = (db, some e)
  ∧ (DB.writeTxn db c f).1.datastore = db.datastore
  ∧ (DB.writeTxn db c f).1.dispatcherStore = db.dispatcherStore
  ∧ (DB.writeTxn db c f).1.notifications = db.notifications := by
  simp [DB.writeTxn, hf]

/-- Witness for C9 with a body that always errors. -/
theorem C9_writeTxn_error_aborts_witness :
    DB.writeTxn ⟨[(instanceKey "books" "i1", ⟨"i1", "d"⟩)], [], []⟩
        ⟨"books", fun _ => true⟩ (fun _ => .error .notFound)
      = (⟨[(instanceKey "books" "i1", ⟨"i1", "d"⟩)], [], []⟩, some .notFound)
  ∧ (DB.writeTxn ⟨[(instanceKey "books" "i1", ⟨"i1", "d"⟩)], [], []⟩
        ⟨"books", fun _ => true⟩ (fun _ => .error .notFound)).1.datastore
      = [(instanceKey "books" "i1", ⟨"i1", "d"⟩)]
  ∧ (DB.writeTxn ⟨[(instanceKey "books" "i1", ⟨"i1", "d"⟩)], [], []⟩
        ⟨"books", fun _ => true⟩ (fun _ => .error .notFound)).1.dispatcherStore = []
  ∧ (DB.writeTxn ⟨[(instanceKey "books" "i1", ⟨"i1", "d"⟩)], [], []⟩
        ⟨"books", fun _ => true⟩ (fun _ => .error .notFound)).1.notifications = [] :=
  C9_writeTxn_error_aborts ⟨[(instanceKey "books" "i1", ⟨"i1", "d"⟩)], [], []⟩
    ⟨"books", fun _ => true⟩ (fun _ => .error .notFound) .notFound rfl

end db

/-! ## Network server (src/net/server.go, src/unnamed/part_004)

The gRPC handlers PushRecord, GetRecords and ExchangeEdges over the log
store. The log store edge functions, the record store PutRecord, the pull
cap MaxPullLimit and getLocalRecords are not under src and are modelled
from the spec where noted. -/

namespace net

/-- Thread identifiers (opaque). -/
abbrev ThreadID := Nat

/-- Peer identifiers; log identifiers are peer identities. -/
abbrev PeerID := Nat

/-- Log identifiers. -/
abbrev LogID := Nat

/-- gRPC status codes used by the handlers. -/
inductive Code
  | ok
  | notFound
  | unauthenticated
  | internal
deriving DecidableEq

/-- A decoded log record: its content id, signed payload and signature. -/
structure NetRecord where
  cid : Nat
  payload : Nat
  sig : Nat
deriving DecidableEq

/-- Models the deterministic signature of a payload under an author key
(libp2p crypto, external to this repository). -/
def signOf (pk payload : Nat) : Nat := pk * 1000003 + payload

/-- Record.Verify: the signature must match the log public key. -/
def recVerify (pk : Nat) (r : NetRecord) : Bool := decide (r.sig = signOf pk r.payload)

/-- A proto record as received on the wire: the decoded record together
with the service key it was sealed under. -/
structure RecordProto where
  sealKey : Nat
  inner : NetRecord
deriving DecidableEq

/-- RecordFromProto models cbor.RecordFromProto: decoding succeeds exactly
when the caller supplies the service key the record was sealed under. -/
def RecordFromProto (p : RecordProto) (key : Option Nat) : Except String NetRecord :=
  if key = some p.sealKey then .ok p.inner else .error "record decryption failed"

/-- The server-visible log store and block store state. -/
structure NetStore where
  pubKeys : List ((ThreadID × LogID) × Nat)
  serviceKeys : List (ThreadID × Nat)
  knownCids : List Nat
  logs : List ((ThreadID × LogID) × List NetRecord)
  addrs : List ((ThreadID × LogID) × List Nat)
deriving DecidableEq

/-- Stored log public key. -/
def NetStore.PubKey (s : NetStore) (t : ThreadID) (l : LogID) : Option Nat :=
  (s.pubKeys.find? (fun kv => decide (kv.1 = (t, l)))).map Prod.snd

/-- Stored thread service key. -/
def NetStore.ServiceKey (s : NetStore) (t : ThreadID) : Option Nat :=
  (s.serviceKeys.find? (fun kv => decide (kv.1 = t))).map Prod.snd

/-- Block store membership of a record cid (net.isKnown). -/
def NetStore.isKnown (s : NetStore) (c : Nat) : Bool := s.knownCids.contains c

/-- Chain of one log. -/
def NetStore.logOf (s : NetStore) (t : ThreadID) (l : LogID) : List NetRecord :=
  ((s.logs.find? (fun kv => decide (kv.1 = (t, l)))).map Prod.snd).getD []

/-- Modelled from the spec: net.PutRecord (implementation not under src)
stores a verified record on the (thread, log) chain and marks its cid
known. -/
def NetStore.PutRecord (s : NetStore) (t : ThreadID) (l : LogID) (r : NetRecord) :
    NetStore :=
  { s with knownCids := r.cid :: s.knownCids,
           logs := ((t, l), s.logOf t l ++ [r]) ::
             s.logs.filter (fun kv => decide (kv.1 ≠ (t, l))) }

/-- A PushRecord request body. -/
structure PushRecordReq where
  threadID : ThreadID
  logID : LogID
  record : RecordProto
deriving DecidableEq

/-- PushRecord models server.PushRecord: a log without a stored public key
is NotFound; a known record cid is an idempotent success; a failed
signature verification is Unauthenticated; otherwise the record is stored
via PutRecord and the call succeeds. -/
def server.PushRecord (s : NetStore) (req : PushRecordReq) : NetStore × Code :=
  match s.PubKey req.threadID req.logID with
  | none => (s, .notFound)
  | some logpk =>
    match RecordFromProto req.record (s.ServiceKey req.threadID) with
    | .error _ => (s, .internal)
    | .ok rec =>
      if s.isKnown rec.cid = true then (s, .ok)
      else if recVerify logpk rec = false then (s, .unauthenticated)
      else (s.PutRecord req.threadID req.logID rec, .ok)

/-- C2: PushRecord replies NotFound when no public key is stored for the
(thread, log); succeeds as a no-op when the record cid is already known;
replies Unauthenticated when the signature does not verify against the
stored log public key; and otherwise stores the record and succeeds. -/
theorem C2_push_record_cases (s : NetStore) (req : PushRecordReq) :
    (s.PubKey req.threadID req.logID = none →
      server.PushRecord s req = (s, .notFound))
  ∧ (∀ logpk rec, s.PubKey req.threadID req.logID = some logpk →
      RecordFromProto req.record (s.ServiceKey req.threadID) = .ok rec →
      s.isKnown rec.cid = true →
      server.PushRecord s req = (s, .ok))
  ∧ (∀ logpk rec, s.PubKey req.threadID req.logID = some logpk →
      RecordFromProto req.record (s.ServiceKey req.threadID) = .ok rec →
      s.isKnown rec.cid = false →
      recVerify logpk rec = false →
      server.PushRecord s req = (s, .unauthenticated))
  ∧ (∀ logpk rec, s.PubKey req.threadID req.logID = some logpk →
      RecordFromProto req.record (s.ServiceKey req.threadID) = .ok rec →
      s.isKnown rec.cid = false →
      recVerify logpk rec = true →
      server.PushRecord s req = (s.PutRecord req.threadID req.logID rec, .ok)
      ∧ (s.PutRecord req.threadID req.logID rec).isKnown rec.cid = true) := by
  refine ⟨?_, ?_, ?_, ?_⟩
  · intro hnone
    unfold server.PushRecord
    rw [hnone]
  · intro logpk rec hpk hdec hknown
    unfold server.PushRecord
    rw [hpk, hdec]
    simp [hknown]
  · intro logpk rec hpk hdec hknown hbad
    unfold server.PushRecord
    rw [hpk, hdec]
    simp [hknown, hbad]
  · intro logpk rec hpk hdec hknown hgood
    constructor
    · unfold server.PushRecord
      rw [hpk, hdec]
      simp [hknown, hgood]
    · unfold NetStore.PutRecord NetStore.isKnown
      simp

/-- Witness for C2 exercising all four replies at a concrete store. -/
theorem C2_push_record_cases_witness :
    server.PushRecord ⟨[], [], [], [], []⟩ ⟨1, 2, ⟨9, ⟨42, 3, 0⟩⟩⟩
      = (⟨[], [], [], [], []⟩, .notFound)
  ∧ server.PushRecord ⟨[((1, 2), 5)], [(1, 9)], [42], [], []⟩ ⟨1, 2, ⟨9, ⟨42, 3, 0⟩⟩⟩
      = (⟨[((1, 2), 5)], [(1, 9)], [42], [], []⟩, .ok)
  ∧ server.PushRecord ⟨[((1, 2), 5)], [(1, 9)], [], [], []⟩ ⟨1, 2, ⟨9, ⟨42, 3, 0⟩⟩⟩
      = (⟨[((1, 2), 5)], [(1, 9)], [], [], []⟩, .unauthenticated)
  ∧ (server.PushRecord ⟨[((1, 2), 5)], [(1, 9)], [], [], []⟩
        ⟨1, 2, ⟨9, ⟨42, 3, signOf 5 3⟩⟩⟩
      = ((NetStore.mk [((1, 2), 5)] [(1, 9)] [] [] []).PutRecord 1 2 ⟨42, 3, signOf 5 3⟩, .ok)
    ∧ ((NetStore.mk [((1, 2), 5)] [(1, 9)] [] [] []).PutRecord 1 2
        ⟨42, 3, signOf 5 3⟩).isKnown 42 = true) :=
  ⟨(C2_push_record_cases ⟨[], [], [], [], []⟩ ⟨1, 2, ⟨9, ⟨42, 3, 0⟩⟩⟩).1 rfl,
   (C2_push_record_cases ⟨[((1, 2), 5)], [(1, 9)], [42], [], []⟩
      ⟨1, 2, ⟨9, ⟨42, 3, 0⟩⟩⟩).2.1 5 ⟨42, 3, 0⟩ rfl rfl rfl,
   (C2_push_record_cases ⟨[((1, 2), 5)], [(1, 9)], [], [], []⟩
      ⟨1, 2, ⟨9, ⟨42, 3, 0⟩⟩⟩).2.2.1 5 ⟨42, 3, 0⟩ rfl rfl rfl (by decide),
   (C2_push_record_cases ⟨[((1, 2), 5)], [(1, 9)], [], [], []⟩
      ⟨1, 2, ⟨9, ⟨42, 3, signOf 5 3⟩⟩⟩).2.2.2 5 ⟨42, 3, signOf 5 3⟩ rfl rfl rfl
      (by decide)⟩

/-- Ordered insertion for the canonicalization step of edge digests. -/
def insertNat (x : Nat) : List Nat → List Nat
  | [] => [x]
  | y :: ys => if x ≤ y then x :: y :: ys else y :: insertNat x ys

/-- Sorting for the canonicalization step of edge digests. -/
def sortNat : List Nat → List Nat
  | [] => []
  | x :: xs => insertNat x (sortNat xs)

/-- Injective encoding of a (log, optional head) pair for hashing. -/
def encodeLogHead (p : LogID × Option Nat) : Nat :=
  (p.1 + 1) * 2 ^ 70 + (match p.2 with | none => 0 | some c => c + 1)

/-- Modelled from the spec: util.ComputeHeadsEdge (implementation not under
src), a deterministic 64-bit digest over the canonically sorted (log, head)
pairs. -/
def ComputeHeadsEdge (hs : List (LogID × Option Nat)) : Nat :=
  (sortNat (hs.map encodeLogHead)).foldl (fun a x => (a * 31 + x) % 2 ^ 64) 5381

/-- Logs of one thread with their chains. -/
def NetStore.threadLogs (s : NetStore) (t : ThreadID) : List (LogID × List NetRecord) :=
  s.logs.filterMap (fun kv => if kv.1.1 = t then some (kv.1.2, kv.2) else none)

/-- Modelled from the spec: the head book heads edge of a thread (lstoreds
HeadsEdge, implementation not under src): a digest over the current
(log, head) pairs, failing with thread-not-found when no heads exist. -/
def NetStore.HeadsEdge (s : NetStore) (t : ThreadID) : Except String Nat :=
  let pairs := (s.threadLogs t).filterMap
    (fun lg => match lg.2.getLast? with
      | none => none
      | some r => some (lg.1, some r.cid))
  if pairs.isEmpty = true then .error "thread not found"
  else .ok (ComputeHeadsEdge pairs)

/-- A per-log entry of a GetRecords request body. -/
structure GetRecsLogEntry where
  logID : LogID
  offset : Option Nat
  limit : Nat
deriving DecidableEq

/-- A GetRecords request body. -/
structure GetRecordsReq where
  threadID : ThreadID
  serviceKey : Option Nat
  logs : List GetRecsLogEntry
deriving DecidableEq

/-- A per-log entry of a GetRecords reply. -/
structure GetRecsReplyEntry where
  logID : LogID
  records : List NetRecord
  logInfoIncluded : Bool
deriving DecidableEq

/-- checkServiceKey models server.checkServiceKey: a missing key is
Unauthenticated, an unknown thread is NotFound, a mismatch is
Unauthenticated. -/
def server.checkServiceKey (s : NetStore) (t : ThreadID) (k : Option Nat) :
    Option Code :=
  match k with
  | none => some .unauthenticated
  | some kv =>
    match s.ServiceKey t with
    | none => some .notFound
    | some sk => if kv = sk then none else some .unauthenticated

/-- headsChanged models server.headsChanged: compare the digest of the
requested (log, offset) pairs with the thread heads edge; an unknown thread
counts as changed. -/
def server.headsChanged (s : NetStore) (req : GetRecordsReq) : Except String Bool :=
  let reqHeads := req.logs.map (fun l => (l.logID, l.offset))
  match s.HeadsEdge req.threadID with
  | .ok currEdge => .ok (decide (ComputeHeadsEdge reqHeads ≠ currEdge))
  | .error _ => .ok true

/-- Modelled from the spec: the pull cap MAX_PULL_LIMIT (constant not under
src). -/
def MaxPullLimit : Nat := 10000

/-- Modelled from the spec: the chain segment strictly after the offset
(the whole chain when the offset is undefined or not on the chain). -/
def recordsAfterOffset (chain : List NetRecord) : Option Nat → List NetRecord
  | none => chain
  | some c =>
    if chain.any (fun r => decide (r.cid = c)) = true then
      (chain.dropWhile (fun r => decide (r.cid ≠ c))).drop 1
    else chain

/-- Modelled from the spec: net.getLocalRecords (implementation not under
src) returns the records strictly after the offset capped by the limit. -/
def getLocalRecords (chain : List NetRecord) (off : Option Nat) (lim : Nat) :
    List NetRecord :=
  (recordsAfterOffset chain off).take lim

/-- Lookup in the request map reqd built by server.GetRecords; the Go map
assignment keeps the last entry per log id. -/
def reqdLookup (logs : List GetRecsLogEntry) (lid : LogID) : Option GetRecsLogEntry :=
  logs.reverse.find? (fun l => decide (l.logID = lid))

/-- GetRecords models server.GetRecords: check the service key, take the
fast path when the requested offsets digest-match the current heads edge,
and otherwise answer per local log with records after the requested offset,
capped by the requested limit and by MaxPullLimit split across the local
logs; logs absent from the request are returned whole (capped) with their
log info attached, and requested logs with no new records are omitted. -/
def server.GetRecords (s : NetStore) (req : GetRecordsReq) :
    Except Code (List GetRecsReplyEntry) :=
  match server.checkServiceKey s req.threadID req.serviceKey with
  | some code => .error code
  | none =>
    match server.headsChanged s req with
    | .error _ => .error .internal
    | .ok false => .ok []
    | .ok true =>
      let info := s.threadLogs req.threadID
      if info.length = 0 then .ok []
      else
        let logRecordLimit := MaxPullLimit / info.length
        .ok (info.filterMap (fun lg =>
          match reqdLookup req.logs lg.1 with
          | some opts =>
            let prs := getLocalRecords lg.2 opts.offset (min opts.limit logRecordLimit)
            if prs.length = 0 then none
            else some ⟨lg.1, prs, false⟩
          | none =>
            some ⟨lg.1, getLocalRecords lg.2 none logRecordLimit, true⟩))

theorem getLocalRecords_length_le (chain : List NetRecord) (off : Option Nat)
    (lim : Nat) : (getLocalRecords chain off lim).length ≤ lim := by
  unfold getLocalRecords
  rw [List.length_take]
  exact min_le_left _ _

/-- C3: with a valid service key, GetRecords returns no records when the
digest of the requested (log, offset) pairs equals the current heads edge;
otherwise every reply entry stays within MaxPullLimit divided by the number
of local logs, and an entry for a requested log holds exactly the records
strictly after the requested offset capped by the minimum of the requested
limit and that split cap. -/
theorem C3_get_records_limits (s : NetStore) (req : GetRecordsReq) (k : Nat)
    (hk : req.serviceKey = some k)
    (hsk : s.ServiceKey req.threadID = some k) :
    (∀ edge, s.HeadsEdge req.threadID = .ok edge →
      ComputeHeadsEdge (req.logs.map (fun l => (l.logID, l.offset))) = edge →
      server.GetRecords s req = .ok [])
  ∧ (∀ entries, server.GetRecords s req = .ok entries →
      ∀ e ∈ entries,
        e.records.length ≤ MaxPullLimit / (s.threadLogs req.threadID).length
      ∧ (∀ opts, reqdLookup req.logs e.logID = some opts →
          e.records.length ≤ opts.limit
        ∧ ∃ chain, (e.logID, chain) ∈ s.threadLogs req.threadID
            ∧ e.records = getLocalRecords chain opts.offset
                (min opts.limit (MaxPullLimit / (s.threadLogs req.threadID).length)))) := by
  have hcsk : server.checkServiceKey s req.threadID req.serviceKey = none := by
    unfold server.checkServiceKey
    rw [hk, hsk]
    simp
  constructor
  · intro edge hE hEq
    have hhc : server.headsChanged s req = .ok false := by
      unfold server.headsChanged
      rw [hE]
      simp [hEq]
    unfold server.GetRecords
    rw [hcsk, hhc]
  · intro entries hentries e he
    unfold server.GetRecords at hentries
    rw [hcsk] at hentries
    cases hhc : server.headsChanged s req with
    | error err =>
      rw [hhc] at hentries
      exact absurd hentries (by simp)
    | ok b =>
      rw [hhc] at hentries
      cases b with
      | false =>
        simp only [Except.ok.injEq] at hentries
        subst hentries
        exact absurd he (by simp)
      | true =>
        by_cases hlen : (s.threadLogs req.threadID).length = 0
        · simp only [hlen, if_true, Except.ok.injEq] at hentries
          subst hentries
          exact absurd he (by simp)
        · simp only [hlen, if_false, Except.ok.injEq] at hentries
          subst hentries
          rcases List.mem_filterMap.mp he with ⟨lg, hlg, hfe⟩
          cases hro : reqdLookup req.logs lg.1 with
          | some opts =>
            rw [hro] at hfe
            simp only at hfe
            by_cases hz : (getLocalRecords lg.2 opts.offset
                (min opts.limit (MaxPullLimit / (s.threadLogs req.threadID).length))).length = 0
            · rw [if_pos hz] at hfe
              exact absurd hfe (by simp)
            · rw [if_neg hz] at hfe
              have he2 : e = ⟨lg.1, getLocalRecords lg.2 opts.offset
                  (min opts.limit (MaxPullLimit / (s.threadLogs req.threadID).length)),
                  false⟩ := by
                exact (Option.some.injEq _ _ ▸ hfe).symm
              subst he2
              refine ⟨?_, ?_⟩
              · exact le_trans (getLocalRecords_length_le _ _ _) (min_le_right _ _)
              · intro opts2 hopts2
                have hsame : opts2 = opts := by
                  rw [hro] at hopts2
                  exact (Option.some.injEq _ _ ▸ hopts2.symm)
                subst hsame
                refine ⟨le_trans (getLocalRecords_length_le _ _ _) (min_le_left _ _),
                  lg.2, ?_, rfl⟩
                simpa using hlg
          | none =>
            rw [hro] at hfe
            simp only [Option.some.injEq] at hfe
            subst hfe
            refine ⟨getLocalRecords_length_le _ _ _, ?_⟩
            intro opts2 hopts2
            rw [hro] at hopts2
            exact absurd hopts2 (by simp)

/-- Witness for C3: the fast path on matching offsets at a concrete store,
and the per-log caps at a concrete mismatching request. -/
theorem C3_get_records_limits_witness :
    server.GetRecords
        ⟨[], [(1, 9)], [], [((1, 2), [⟨10, 0, 0⟩, ⟨11, 0, 0⟩])], []⟩
        ⟨1, some 9, [⟨2, some 11, 5⟩]⟩ = .ok []
  ∧ ((⟨2, [⟨10, 0, 0⟩, ⟨11, 0, 0⟩], false⟩ : GetRecsReplyEntry).records.length
        ≤ MaxPullLimit / ((NetStore.mk [] [(1, 9)] [] [((1, 2), [⟨10, 0, 0⟩, ⟨11, 0, 0⟩])]
            []).threadLogs 1).length
    ∧ ((⟨2, [⟨10, 0, 0⟩, ⟨11, 0, 0⟩], false⟩ : GetRecsReplyEntry).records.length ≤ 5
      ∧ ∃ chain, (2, chain) ∈ (NetStore.mk [] [(1, 9)] []
            [((1, 2), [⟨10, 0, 0⟩, ⟨11, 0, 0⟩])] []).threadLogs 1
          ∧ (⟨2, [⟨10, 0, 0⟩, ⟨11, 0, 0⟩], false⟩ : GetRecsReplyEntry).records
            = getLocalRecords chain none (min 5 (MaxPullLimit /
                ((NetStore.mk [] [(1, 9)] [] [((1, 2), [⟨10, 0, 0⟩, ⟨11, 0, 0⟩])]
                  []).threadLogs 1).length)))) := by
  constructor
  · exact (C3_get_records_limits
      ⟨[], [(1, 9)], [], [((1, 2), [⟨10, 0, 0⟩, ⟨11, 0, 0⟩])], []⟩
      ⟨1, some 9, [⟨2, some 11, 5⟩]⟩ 9 rfl rfl).1
      (ComputeHeadsEdge [(2, some 11)]) rfl rfl
  · have h2 := ((C3_get_records_limits
      ⟨[], [(1, 9)], [], [((1, 2), [⟨10, 0, 0⟩, ⟨11, 0, 0⟩])], []⟩
      ⟨1, some 9, [⟨2, none, 5⟩]⟩ 9 rfl rfl).2
      [⟨2, [⟨10, 0, 0⟩, ⟨11, 0, 0⟩], false⟩] (by rfl)
      ⟨2, [⟨10, 0, 0⟩, ⟨11, 0, 0⟩], false⟩ (by simp))
    exact ⟨h2.1, h2.2 ⟨2, none, 5⟩ rfl⟩

/-- Modelled from the spec: util.ComputeAddrsEdge (implementation not under
src), a digest over the sorted deduplicated multiaddress set. -/
def ComputeAddrsEdge (as : List Nat) : Nat :=
  (sortNat as.dedup).foldl (fun a x => (a * 31 + x) % 2 ^ 64) 5381

/-- Modelled from the spec: the address book addrs edge of a thread
(lstoreds AddrsEdge, implementation not under src), failing with
thread-not-found when the thread has no addresses. -/
def NetStore.AddrsEdge (s : NetStore) (t : ThreadID) : Except String Nat :=
  let as := (s.addrs.filterMap
    (fun kv => if kv.1.1 = t then some kv.2 else none)).flatten
  if as.isEmpty = true then .error "thread not found"
  else .ok (ComputeAddrsEdge as)

/-- The two sentinel errors of server.localEdges. -/
inductive EdgeErr
  | noAddrsEdge
  | noHeadsEdge
deriving DecidableEq

/-- localEdges models server.localEdges: the address edge first (a missing
thread surfaces as errNoAddrsEdge), then the heads edge (missing heads
surface as errNoHeadsEdge). -/
def server.localEdges (s : NetStore) (t : ThreadID) : Except EdgeErr (Nat × Nat) :=
  match s.AddrsEdge t with
  | .error _ => .error .noAddrsEdge
  | .ok a =>
    match s.HeadsEdge t with
    | .error _ => .error .noHeadsEdge
    | .ok h => .ok (a, h)

/-- Call priorities of the replication queues. -/
inductive Priority
  | low
  | high
deriving DecidableEq

/-- A call recorded on one of the two per-peer queues. Schedule itself (the
queue scheduler, not under src) is modelled as recording the scheduled call
with its priority. -/
structure SchedCall where
  peer : PeerID
  tid : ThreadID
  prio : Priority
deriving DecidableEq

/-- The calls recorded on the getLogs and getRecords queues. -/
structure Sched where
  getLogsCalls : List SchedCall
  getRecordsCalls : List SchedCall
deriving DecidableEq

/-- One thread entry of an ExchangeEdges request. -/
structure ThreadEntryReq where
  tid : ThreadID
  addressEdge : Nat
  headsEdge : Nat
deriving DecidableEq

/-- One thread entry of an ExchangeEdges reply; a non-existing thread
leaves the edge fields at the proto default. -/
structure ThreadEdgesReply where
  tid : ThreadID
  texists : Bool
  addressEdge : Nat
  headsEdge : Nat
deriving DecidableEq

/-- The per-entry body of the server.ExchangeEdges loop. -/
def server.exchangeEdgesStep (s : NetStore) (pid : PeerID)
    (acc : List ThreadEdgesReply × Sched) (entry : ThreadEntryReq) :
    List ThreadEdgesReply × Sched :=
  match server.localEdges s entry.tid with
  | .ok ah =>
    let sch1 := if ah.1 ≠ entry.addressEdge then
        { acc.2 with getLogsCalls := acc.2.getLogsCalls ++ [⟨pid, entry.tid, .low⟩] }
      else acc.2
    let sch2 := if ah.2 ≠ entry.headsEdge then
        { sch1 with getRecordsCalls := sch1.getRecordsCalls ++ [⟨pid, entry.tid, .low⟩] }
      else sch1
    (acc.1 ++ [⟨entry.tid, true, ah.1, ah.2⟩], sch2)
  | .error .noAddrsEdge =>
    (acc.1 ++ [⟨entry.tid, false, 0, 0⟩],
     { acc.2 with getLogsCalls := acc.2.getLogsCalls ++ [⟨pid, entry.tid, .high⟩] })
  | .error .noHeadsEdge =>
    (acc.1 ++ [⟨entry.tid, false, 0, 0⟩],
     { acc.2 with getRecordsCalls := acc.2.getRecordsCalls ++ [⟨pid, entry.tid, .low⟩] })

/-- ExchangeEdges models server.ExchangeEdges: per requested thread, reply
with the local edges when both exist (scheduling updateLogs at Low on a
differing address edge and updateRecords at Low on a differing heads edge);
reply Exists=false scheduling GetLogs at High when the thread has no
addresses, and Exists=false scheduling updateRecords at Low when it has
addresses but no heads. -/
def server.ExchangeEdges (s : NetStore) (pid : PeerID)
    (reqThreads : List ThreadEntryReq) : List ThreadEdgesReply × Sched :=
  reqThreads.foldl (server.exchangeEdgesStep s pid) ([], ⟨[], []⟩)

/-- The requester loop over an ExchangeEdges reply (server.exchangeEdges in
src/unnamed/part_004): per thread whose responder entry exists, re-read the
local edges and schedule a Low priority update from that peer for each
differing edge. -/
def server.exchangeEdgesHandleReply (s : NetStore) (pid : PeerID)
    (tids : List ThreadID) (edges : List ThreadEdgesReply) : Sched :=
  (tids.zip edges).foldl (fun sch te =>
    if te.2.texists = false then sch
    else match server.localEdges s te.1 with
      | .error _ => sch
      | .ok ah =>
        let sch1 := if te.2.addressEdge ≠ ah.1 then
            { sch with getLogsCalls := sch.getLogsCalls ++ [⟨pid, te.1, .low⟩] }
          else sch
        if te.2.headsEdge ≠ ah.2 then
          { sch1 with getRecordsCalls := sch1.getRecordsCalls ++ [⟨pid, te.1, .low⟩] }
        else sch1)
    ⟨[], []⟩

/-- A thread is known to the peer when the log store holds any log
information for it (keys, addresses or records). -/
def NetStore.threadKnown (s : NetStore) (t : ThreadID) : Bool :=
  s.logs.any (fun kv => decide (kv.1.1 = t))
  || s.addrs.any (fun kv => decide (kv.1.1 = t))
  || s.pubKeys.any (fun kv => decide (kv.1.1 = t))

/-- Counterexample to C4 as stated: a thread that is known locally (it has
a log with stored addresses) but has no heads yet is answered with
Exists=false, not Exists=true with its edges. -/
theorem C4_counterexample :
    ¬ (∀ (s : NetStore) (pid : PeerID) (reqThreads : List ThreadEntryReq)
        (i : Nat) (entry : ThreadEntryReq),
        reqThreads[i]? = some entry →
        s.threadKnown entry.tid = true →
        ∃ a h, (server.ExchangeEdges s pid reqThreads).1[i]?
          = some ⟨entry.tid, true, a, h⟩) := by
  intro hclaim
  rcases hclaim ⟨[], [], [], [], [((1, 2), [5])]⟩ 0 [⟨1, 0, 0⟩] 0 ⟨1, 0, 0⟩ rfl rfl
    with ⟨a, h, habs⟩
  have hval : (server.ExchangeEdges ⟨[], [], [], [], [((1, 2), [5])]⟩ 0
      [⟨1, 0, 0⟩]).1[0]? = some ⟨1, false, 0, 0⟩ := rfl
  rw [hval] at habs
  simp at habs

/-- C4 amended: per requested thread the responder replies Exists=true
with its local edges when both exist, scheduling updateLogs at Low when the
address edges differ and updateRecords at Low when the heads edges differ;
it replies Exists=false scheduling GetLogs at High when the thread has no
addresses locally, and Exists=false scheduling updateRecords at Low when
the thread is known but has no heads; the requester schedules the same Low
priority updates on differing edges of existing entries. -/
theorem C4_exchange_edges_cases (s : NetStore) (pid : PeerID)
    (entry : ThreadEntryReq) :
    (∀ a h, server.localEdges s entry.tid = .ok (a, h) →
      server.ExchangeEdges s pid [entry]
        = ([⟨entry.tid, true, a, h⟩],
           ⟨if a ≠ entry.addressEdge then [⟨pid, entry.tid, .low⟩] else [],
            if h ≠ entry.headsEdge then [⟨pid, entry.tid, .low⟩] else []⟩))
  ∧ (server.localEdges s entry.tid = .error .noAddrsEdge →
      server.ExchangeEdges s pid [entry]
        = ([⟨entry.tid, false, 0, 0⟩], ⟨[⟨pid, entry.tid, .high⟩], []⟩))
  ∧ (server.localEdges s entry.tid = .error .noHeadsEdge →
      server.ExchangeEdges s pid [entry]
        = ([⟨entry.tid, false, 0, 0⟩], ⟨[], [⟨pid, entry.tid, .low⟩]⟩))
  ∧ (∀ tid rep a h, rep.texists = true →
      server.localEdges s tid = .ok (a, h) →
      server.exchangeEdgesHandleReply s pid [tid] [rep]
        = ⟨if rep.addressEdge ≠ a then [⟨pid, tid, .low⟩] else [],
           if rep.headsEdge ≠ h then [⟨pid, tid, .low⟩] else []⟩) := by
  refine ⟨?_, ?_, ?_, ?_⟩
  · intro a h hedges
    unfold server.ExchangeEdges
    simp only [List.foldl_cons, List.foldl_nil]
    unfold server.exchangeEdgesStep
    rw [hedges]
    by_cases ha : a ≠ entry.addressEdge
    · by_cases hh : h ≠ entry.headsEdge
      · simp [ha, hh]
      · simp [ha, hh]
    · by_cases hh : h ≠ entry.headsEdge
      · simp [ha, hh]
      · simp [ha, hh]
  · intro hedges
    unfold server.ExchangeEdges
    simp only [List.foldl_cons, List.foldl_nil]
    unfold server.exchangeEdgesStep
    rw [hedges]
    rfl
  · intro hedges
    unfold server.ExchangeEdges
    simp only [List.foldl_cons, List.foldl_nil]
    unfold server.exchangeEdgesStep
    rw [hedges]
    rfl
  · intro tid rep a h hex hedges
    unfold server.exchangeEdgesHandleReply
    simp only [List.zip, List.zipWith, List.foldl_cons, List.foldl_nil]
    rw [hex]
    simp only [Bool.true_eq_false, if_false]
    rw [hedges]
    by_cases ha : rep.addressEdge ≠ a
    · by_cases hh : rep.headsEdge ≠ h
      · simp [ha, hh]
      · simp [ha, hh]
    · by_cases hh : rep.headsEdge ≠ h
      · simp [ha, hh]
      · simp [ha, hh]

/-- Witness for the amended C4 at concrete stores: a thread with addresses
and heads whose heads edge differs, a thread with no addresses, a thread
with addresses but no heads, and the requester on an existing entry with a
differing heads edge. -/
theorem C4_exchange_edges_cases_witness :
    server.ExchangeEdges ⟨[], [], [], [((1, 2), [⟨10, 0, 0⟩])], [((1, 2), [5])]⟩ 7
        [⟨1, ComputeAddrsEdge [5], 0⟩]
      = ([⟨1, true, ComputeAddrsEdge [5], ComputeHeadsEdge [(2, some 10)]⟩],
         ⟨[], [⟨7, 1, .low⟩]⟩)
  ∧ server.ExchangeEdges ⟨[], [], [], [], []⟩ 7 [⟨1, 0, 0⟩]
      = ([⟨1, false, 0, 0⟩], ⟨[⟨7, 1, .high⟩], []⟩)
  ∧ server.ExchangeEdges ⟨[], [], [], [], [((1, 2), [5])]⟩ 7 [⟨1, 0, 0⟩]
      = ([⟨1, false, 0, 0⟩], ⟨[], [⟨7, 1, .low⟩]⟩)
  ∧ server.exchangeEdgesHandleReply ⟨[], [], [], [((1, 2), [⟨10, 0, 0⟩])], [((1, 2), [5])]⟩ 7
        [1] [⟨1, true, ComputeAddrsEdge [5], 0⟩]
      = ⟨[], [⟨7, 1, .low⟩]⟩ := by
  refine ⟨?_, ?_, ?_, ?_⟩
  · have h1 := (C4_exchange_edges_cases
      ⟨[], [], [], [((1, 2), [⟨10, 0, 0⟩])], [((1, 2), [5])]⟩ 7
      ⟨1, ComputeAddrsEdge [5], 0⟩).1 (ComputeAddrsEdge [5])
      (ComputeHeadsEdge [(2, some 10)]) rfl
    rw [h1]
    have hne : (ComputeHeadsEdge [(2, some 10)] ≠ 0) = True := by
      simp [ComputeHeadsEdge, sortNat, insertNat, encodeLogHead]
    simp [hne]
  · exact (C4_exchange_edges_cases ⟨[], [], [], [], []⟩ 7 ⟨1, 0, 0⟩).2.1 rfl
  · exact (C4_exchange_edges_cases ⟨[], [], [], [], [((1, 2), [5])]⟩ 7
      ⟨1, 0, 0⟩).2.2.1 rfl
  · have h4 := (C4_exchange_edges_cases
      ⟨[], [], [], [((1, 2), [⟨10, 0, 0⟩])], [((1, 2), [5])]⟩ 7
      ⟨1, 0, 0⟩).2.2.2 1 ⟨1, true, ComputeAddrsEdge [5], 0⟩
      (ComputeAddrsEdge [5]) (ComputeHeadsEdge [(2, some 10)]) rfl rfl
    rw [h4]
    have hne : (0 ≠ ComputeHeadsEdge [(2, some 10)]) = True := by
      simp [ComputeHeadsEdge, sortNat, insertNat, encodeLogHead]
    simp [hne]

end net

end Threads
